import Mathlib

/-!
Verification of `src/utils/password_generator.py`.

The Python module is embedded shallowly:

* the four character-class tables and the ambiguous-character table of
  `PasswordGenerator.__init__` become concrete `List Char` constants;
* the cryptographically secure random source (`secrets.choice`,
  `secrets.randbelow`) is modelled by an arbitrary stream `rand : Nat → Nat`
  of draws, consumed in program order; a draw used against a set of size `n`
  is reduced modulo `n`, so quantifying over all streams covers exactly all
  sequences of in-range draws;
* `secrets.choice` on an empty sequence raises `IndexError` in Python; this
  is modelled by `Option`/the `PGError.indexError` outcome;
* `generate_password` returns `Except PGError String`, with one error
  constructor per `raise ValueError(...)` site of the source.
-/

namespace PasswordGen

/-- Table `self.lowercase = string.ascii_lowercase`. -/
def lowercase : List Char := "abcdefghijklmnopqrstuvwxyz".toList

/-- Table `self.uppercase = string.ascii_uppercase`. -/
def uppercase : List Char := "ABCDEFGHIJKLMNOPQRSTUVWXYZ".toList

/-- Table `self.digits = string.digits`. -/
def digits : List Char := "0123456789".toList

/-- Table `self.symbols` (the literal from the source, braces escaped). -/
def symbols : List Char := "!@#$%^&*()_+-=[]\x7b\x7d|;:,.<>?".toList

/-- Table `self.ambiguous_chars`: the characters 0 O 1 l I, the vertical bar,
the backtick (code 96), the apostrophe (code 39) and the double quote
(code 34). -/
def ambiguous_chars : List Char :=
  ['0', 'O', '1', 'l', 'I', '|', Char.ofNat 96, Char.ofNat 39, Char.ofNat 34]

/-- The keyword arguments of `generate_password`, bundled. -/
structure GenConfig where
  length : Nat
  include_lowercase : Bool
  include_uppercase : Bool
  include_digits : Bool
  include_symbols : Bool
  exclude_ambiguous : Bool
  min_of_each_type : Bool
  deriving DecidableEq, Repr

/-- One constructor per `raise` site of the source: the three
`ValueError` messages of `generate_password`, plus the `IndexError` that
`secrets.choice` would raise on an empty sequence. -/
inductive PGError where
  | invalidLength
  | noCharType
  | lengthTooShort (n : Nat)
  | indexError
  deriving DecidableEq, Repr

/-- The per-class filtering step: `if exclude_ambiguous: chars = ''.join(c
for c in chars if c not in self.ambiguous_chars)`. -/
def filterClass (exclude_ambiguous : Bool) (cs : List Char) : List Char :=
  if exclude_ambiguous then cs.filter (fun c => !(ambiguous_chars.contains c)) else cs

/-- The `selected_types` list built by the four `if include_...:` blocks, in
source order: lowercase, uppercase, digits, symbols. -/
def selectedTypes (cfg : GenConfig) : List (List Char) :=
  (if cfg.include_lowercase then [filterClass cfg.exclude_ambiguous lowercase] else []) ++
  (if cfg.include_uppercase then [filterClass cfg.exclude_ambiguous uppercase] else []) ++
  (if cfg.include_digits then [filterClass cfg.exclude_ambiguous digits] else []) ++
  (if cfg.include_symbols then [filterClass cfg.exclude_ambiguous symbols] else [])

/-- The accumulated `char_set` string: `char_set += chars` over the same four
blocks, i.e. the concatenation of the entries of `selected_types`. -/
def charSet (cfg : GenConfig) : List Char := (selectedTypes cfg).flatten

/-- Model of `secrets.choice(cs)` fed one draw `r` of the random stream:
`none` exactly when `cs` is empty (Python raises `IndexError`), otherwise a
uniform in-range draw selects `cs[r % len(cs)]`. -/
def choice (cs : List Char) (r : Nat) : Option Char := cs.get? (r % cs.length)

/-- The loop `for char_type in selected_types: password_chars.append(
secrets.choice(char_type))`; `k` is the position in the random stream. -/
def drawOneOfEach (rand : Nat → Nat) : List (List Char) → Nat → Option (List Char)
  | [], _ => some []
  | t :: ts, k =>
    (choice t (rand k)).bind fun c =>
      (drawOneOfEach rand ts (k + 1)).map fun cs => c :: cs

/-- The loop `for _ in range(n): password_chars.append(secrets.choice(
char_set))`; `k` is the position in the random stream, `n` the count. -/
def drawFill (cs : List Char) (rand : Nat → Nat) : Nat → Nat → Option (List Char)
  | _, 0 => some []
  | k, n + 1 =>
    (choice cs (rand k)).bind fun c =>
      (drawFill cs rand (k + 1) n).map fun rest => c :: rest

/-- The simultaneous assignment `password_list[i], password_list[j] =
password_list[j], password_list[i]`. In the shuffle loop both indices are
always in range; out-of-range indices leave the list unchanged. -/
def swap (l : List Char) (i j : Nat) : List Char :=
  match l.get? i, l.get? j with
  | some a, some b => (l.set i b).set j a
  | _, _ => l

/-- The shuffle loop body, iterated: `for i in range(len(password_list)):
j = secrets.randbelow(len(password_list)); swap`. `k` is the position in the
random stream, `fuel` the number of remaining iterations, `i` the loop
index. Note the swap partner `j = rand k % len(l)` ranges over the whole
list at every iteration, exactly as `secrets.randbelow(len(password_list))`
does in the source. -/
def shuffleAux (rand : Nat → Nat) : Nat → Nat → Nat → List Char → List Char
  | _, 0, _, l => l
  | k, fuel + 1, i, l => shuffleAux rand (k + 1) fuel (i + 1) (swap l i (rand k % l.length))

/-- The whole shuffle of lines 113-116: `len(l)` iterations starting at
`i = 0`, drawing from the random stream at position `k`. -/
def shuffle (l : List Char) (rand : Nat → Nat) (k : Nat) : List Char :=
  shuffleAux rand k l.length 0 l

/-- Shallow embedding of `PasswordGenerator.generate_password`. The random
stream `rand` supplies every secure draw in program order: mandatory
per-class draws first, then the fill draws, then the shuffle indices. -/
def generate_password (cfg : GenConfig) (rand : Nat → Nat) : Except PGError String :=
  if cfg.length < 4 then .error .invalidLength
  else if (charSet cfg).isEmpty then .error .noCharType
  else if cfg.min_of_each_type && decide (0 < (selectedTypes cfg).length) then
    if cfg.length < (selectedTypes cfg).length then
      .error (.lengthTooShort (selectedTypes cfg).length)
    else
      match drawOneOfEach rand (selectedTypes cfg) 0 with
      | none => .error .indexError
      | some mand =>
        match drawFill (charSet cfg) rand (selectedTypes cfg).length
            (cfg.length - (selectedTypes cfg).length) with
        | none => .error .indexError
        | some fill => .ok (String.mk (shuffle (mand ++ fill) rand cfg.length))
  else
    match drawFill (charSet cfg) rand 0 cfg.length with
    | none => .error .indexError
    | some l => .ok (String.mk l)

/-- Shallow embedding of `PasswordGenerator.generate_multiple_passwords`:
`[self.generate_password(**kwargs) for _ in range(count)]`. The source
performs no validation of `count`; `range(count)` of a non-positive `count`
is empty. Each of the `count` calls draws from its own fresh stream
`rand i`. The first raised error aborts the comprehension, as `mapM` does. -/
def generate_multiple_passwords (count : Int) (cfg : GenConfig)
    (rand : Nat → Nat → Nat) : Except PGError (List String) :=
  (List.range count.toNat).mapM (fun i => generate_password cfg (rand i))

/-- Result dictionary of `check_password_strength`. -/
structure StrengthReport where
  length : Nat
  has_lowercase : Bool
  has_uppercase : Bool
  has_digits : Bool
  has_symbols : Bool
  character_types : Nat
  strength : String
  strength_score : Nat
  deriving DecidableEq, Repr

/-- The `strength_levels` list of the source. -/
def strength_levels : List String := ["Very Weak", "Weak", "Fair", "Good", "Strong"]

/-- Shallow embedding of `PasswordGenerator.check_password_strength`; the
per-character class tests `islower`, `isupper`, `isdigit` are the ASCII
ranges (the inputs of interest are ASCII). -/
def check_password_strength (password : String) : StrengthReport :=
  let cs := password.toList
  let has_lower := cs.any Char.isLower
  let has_upper := cs.any Char.isUpper
  let has_digit := cs.any Char.isDigit
  let has_symbol := cs.any (fun c => symbols.contains c)
  let character_types :=
    (cond has_lower 1 0) + (cond has_upper 1 0) + (cond has_digit 1 0) +
      (cond has_symbol 1 0)
  let strength_score :=
    (if 8 ≤ cs.length then 1 else 0) + (if 12 ≤ cs.length then 1 else 0) +
      (if 3 ≤ character_types then 1 else 0) + (if character_types = 4 then 1 else 0) +
      (if 16 ≤ cs.length then 1 else 0)
  { length := cs.length
    has_lowercase := has_lower
    has_uppercase := has_upper
    has_digits := has_digit
    has_symbols := has_symbol
    character_types := character_types
    strength := strength_levels.getD (min strength_score 4) ""
    strength_score := strength_score }

/-- Every sequence of three in-range draws of `secrets.randbelow(3)`, the
27 equally likely outcomes of the random source during the shuffle of a
three-character buffer. -/
def biasTriples : List (List Nat) :=
  (List.range 3).flatMap fun a => (List.range 3).flatMap fun b =>
    (List.range 3).map fun c => [a, b, c]

/-- How many of the 27 equally likely draw sequences make the shuffle of
the buffer `['a', 'b', 'c']` produce `out`. -/
def shuffleOutcomes (out : List Char) : Nat :=
  (biasTriples.filter
    (fun js => shuffle ['a', 'b', 'c'] (fun k => js.getD k 0) 0 = out)).length

theorem choice_mem {cs : List Char} {r : Nat} {c : Char} (h : choice cs r = some c) :
    c ∈ cs :=
  List.get?_mem h

theorem choice_isSome {cs : List Char} (h : cs ≠ []) (r : Nat) : (choice cs r).isSome := by
  have hlen : 0 < cs.length := List.length_pos.mpr h
  rw [choice, List.get?_eq_get (Nat.mod_lt r hlen)]
  rfl

theorem drawOneOfEach_eq_some (rand : Nat → Nat) :
    ∀ (ts : List (List Char)) (k : Nat) (l : List Char),
      drawOneOfEach rand ts k = some l →
        l.length = ts.length ∧ (∀ c ∈ l, ∃ t ∈ ts, c ∈ t) ∧
          (∀ t ∈ ts, ∃ c ∈ l, c ∈ t) := by
  intro ts
  induction ts with
  | nil =>
    intro k l h
    simp only [drawOneOfEach, Option.some.injEq] at h
    subst h
    simp
  | cons t ts ih =>
    intro k l h
    simp only [drawOneOfEach] at h
    cases hc : choice t (rand k) with
    | none => rw [hc] at h; simp at h
    | some c =>
      rw [hc] at h
      cases hd : drawOneOfEach rand ts (k + 1) with
      | none => rw [hd] at h; simp at h
      | some cs =>
        rw [hd] at h
        simp only [Option.some_bind, Option.map_some', Option.some.injEq] at h
        subst h
        obtain ⟨ihl, ihmem, ihrep⟩ := ih (k + 1) cs hd
        refine ⟨by simp [ihl], ?_, ?_⟩
        · intro x hx
          rcases List.mem_cons.mp hx with rfl | hx
          · exact ⟨t, List.mem_cons_self t ts, choice_mem hc⟩
          · obtain ⟨u, hu, hxu⟩ := ihmem x hx
            exact ⟨u, List.mem_cons_of_mem t hu, hxu⟩
        · intro u hu
          rcases List.mem_cons.mp hu with rfl | hu
          · exact ⟨c, List.mem_cons_self c cs, choice_mem hc⟩
          · obtain ⟨x, hx, hxu⟩ := ihrep u hu
            exact ⟨x, List.mem_cons_of_mem c hx, hxu⟩

theorem drawOneOfEach_isSome (rand : Nat → Nat) :
    ∀ (ts : List (List Char)) (k : Nat), (∀ t ∈ ts, t ≠ []) →
      (drawOneOfEach rand ts k).isSome := by
  intro ts
  induction ts with
  | nil => intro k _; rfl
  | cons t ts ih =>
    intro k hne
    have hc := choice_isSome (hne t (List.mem_cons_self t ts)) (rand k)
    obtain ⟨c, hc⟩ := Option.isSome_iff_exists.mp hc
    have hd := ih (k + 1) (fun u hu => hne u (List.mem_cons_of_mem t hu))
    obtain ⟨cs, hd⟩ := Option.isSome_iff_exists.mp hd
    simp [drawOneOfEach, hc, hd]

theorem drawFill_eq_some (cs : List Char) (rand : Nat → Nat) :
    ∀ (n k : Nat) (l : List Char), drawFill cs rand k n = some l →
      l.length = n ∧ ∀ c ∈ l, c ∈ cs := by
  intro n
  induction n with
  | zero =>
    intro k l h
    simp only [drawFill, Option.some.injEq] at h
    subst h
    simp
  | succ n ih =>
    intro k l h
    simp only [drawFill] at h
    cases hc : choice cs (rand k) with
    | none => rw [hc] at h; simp at h
    | some c =>
      rw [hc] at h
      cases hd : drawFill cs rand (k + 1) n with
      | none => rw [hd] at h; simp at h
      | some rest =>
        rw [hd] at h
        simp only [Option.some_bind, Option.map_some', Option.some.injEq] at h
        subst h
        obtain ⟨ihl, ihmem⟩ := ih (k + 1) rest hd
        refine ⟨by simp [ihl], ?_⟩
        intro x hx
        rcases List.mem_cons.mp hx with rfl | hx
        · exact choice_mem hc
        · exact ihmem x hx

theorem drawFill_isSome (cs : List Char) (rand : Nat → Nat) (h : cs ≠ []) :
    ∀ (n k : Nat), (drawFill cs rand k n).isSome := by
  intro n
  induction n with
  | zero => intro k; rfl
  | succ n ih =>
    intro k
    obtain ⟨c, hc⟩ := Option.isSome_iff_exists.mp (choice_isSome h (rand k))
    obtain ⟨rest, hd⟩ := Option.isSome_iff_exists.mp (ih (k + 1))
    simp [drawFill, hc, hd]

theorem count_set_add (b c a : Char) :
    ∀ (l : List Char) (i : Nat) (h : i < l.length), l[i] = a →
      (l.set i b).count c + (if a == c then 1 else 0) =
        l.count c + (if b == c then 1 else 0) := by
  intro l
  induction l with
  | nil => intro i h; simp at h
  | cons x xs ih =>
    intro i h ha
    cases i with
    | zero =>
      simp only [List.getElem_cons_zero] at ha
      subst ha
      simp only [List.set_cons_zero, List.count_cons]
      omega
    | succ n =>
      have hn : n < xs.length := by simpa using h
      simp only [List.getElem_cons_succ] at ha
      have hih := ih n hn ha
      simp only [List.set_cons_succ, List.count_cons]
      omega

theorem swap_count (l : List Char) (i j : Nat) (c : Char) :
    (swap l i j).count c = l.count c := by
  unfold swap
  cases hi : l.get? i with
  | none => rfl
  | some a =>
    cases hj : l.get? j with
    | none => rfl
    | some b =>
      show ((l.set i b).set j a).count c = l.count c
      rw [List.get?_eq_getElem?] at hi hj
      obtain ⟨hi', ha⟩ := List.getElem?_eq_some.mp hi
      obtain ⟨hj', hb⟩ := List.getElem?_eq_some.mp hj
      have hj'' : j < (l.set i b).length := by simpa using hj'
      have hval : (l.set i b)[j] = b := by
        rw [List.getElem_set]
        split
        · rfl
        · exact hb
      have e1 := count_set_add b c a l i hi' ha
      have e2 := count_set_add a c b (l.set i b) j hj'' hval
      omega

theorem swap_perm (l : List Char) (i j : Nat) : (swap l i j).Perm l :=
  List.perm_iff_count.mpr (fun c => swap_count l i j c)

theorem shuffleAux_perm (rand : Nat → Nat) :
    ∀ (fuel k i : Nat) (l : List Char), (shuffleAux rand k fuel i l).Perm l := by
  intro fuel
  induction fuel with
  | zero => intro k i l; exact List.Perm.refl l
  | succ n ih =>
    intro k i l
    exact (ih (k + 1) (i + 1) (swap l i (rand k % l.length))).trans
      (swap_perm l i (rand k % l.length))

theorem shuffle_perm (l : List Char) (rand : Nat → Nat) (k : Nat) :
    (shuffle l rand k).Perm l :=
  shuffleAux_perm rand l.length k 0 l

theorem mem_flag_block {b : Bool} {x t : List Char} (h : t ∈ if b then [x] else []) :
    t = x := by
  cases b with
  | false => simp at h
  | true => simpa using h

theorem mem_selectedTypes (cfg : GenConfig) (t : List Char) (ht : t ∈ selectedTypes cfg) :
    ∃ base ∈ [lowercase, uppercase, digits, symbols],
      t = filterClass cfg.exclude_ambiguous base := by
  simp only [selectedTypes, List.mem_append] at ht
  rcases ht with ((h | h) | h) | h
  · exact ⟨lowercase, by simp, mem_flag_block h⟩
  · exact ⟨uppercase, by simp, mem_flag_block h⟩
  · exact ⟨digits, by simp, mem_flag_block h⟩
  · exact ⟨symbols, by simp, mem_flag_block h⟩

theorem filterClass_base_ne_nil : ∀ (e : Bool),
    filterClass e lowercase ≠ [] ∧ filterClass e uppercase ≠ [] ∧
      filterClass e digits ≠ [] ∧ filterClass e symbols ≠ [] := by decide

theorem selectedTypes_ne_nil (cfg : GenConfig) : ∀ t ∈ selectedTypes cfg, t ≠ [] := by
  intro t ht
  obtain ⟨base, hbase, rfl⟩ := mem_selectedTypes cfg t ht
  obtain ⟨h1, h2, h3, h4⟩ := filterClass_base_ne_nil cfg.exclude_ambiguous
  simp only [List.mem_cons, List.not_mem_nil, or_false] at hbase
  rcases hbase with rfl | rfl | rfl | rfl
  · exact h1
  · exact h2
  · exact h3
  · exact h4

theorem charSet_ne_nil_of_flag (cfg : GenConfig)
    (hf : cfg.include_lowercase = true ∨ cfg.include_uppercase = true ∨
      cfg.include_digits = true ∨ cfg.include_symbols = true) :
    charSet cfg ≠ [] := by
  have hmem : ∃ t ∈ selectedTypes cfg, t ≠ [] := by
    obtain ⟨h1, h2, h3, h4⟩ := filterClass_base_ne_nil cfg.exclude_ambiguous
    rcases hf with h | h | h | h
    · exact ⟨filterClass cfg.exclude_ambiguous lowercase,
        by simp [selectedTypes, h], h1⟩
    · exact ⟨filterClass cfg.exclude_ambiguous uppercase,
        by simp [selectedTypes, h], h2⟩
    · exact ⟨filterClass cfg.exclude_ambiguous digits,
        by simp [selectedTypes, h], h3⟩
    · exact ⟨filterClass cfg.exclude_ambiguous symbols,
        by simp [selectedTypes, h], h4⟩
  obtain ⟨t, ht, htne⟩ := hmem
  obtain ⟨c, hc⟩ := List.exists_mem_of_ne_nil t htne
  exact List.ne_nil_of_mem (List.mem_flatten_of_mem ht hc)

theorem charSet_eq_nil_flags (cfg : GenConfig) (h : charSet cfg = []) :
    cfg.include_lowercase = false ∧ cfg.include_uppercase = false ∧
      cfg.include_digits = false ∧ cfg.include_symbols = false := by
  refine ⟨?_, ?_, ?_, ?_⟩ <;> by_contra hb <;> simp only [Bool.not_eq_false] at hb
  · exact charSet_ne_nil_of_flag cfg (Or.inl hb) h
  · exact charSet_ne_nil_of_flag cfg (Or.inr (Or.inl hb)) h
  · exact charSet_ne_nil_of_flag cfg (Or.inr (Or.inr (Or.inl hb))) h
  · exact charSet_ne_nil_of_flag cfg (Or.inr (Or.inr (Or.inr hb))) h

theorem generate_ok_cases (cfg : GenConfig) (rand : Nat → Nat) (s : String)
    (h : generate_password cfg rand = .ok s) :
    4 ≤ cfg.length ∧ charSet cfg ≠ [] ∧
      ((cfg.min_of_each_type = true ∧ 0 < (selectedTypes cfg).length ∧
          (selectedTypes cfg).length ≤ cfg.length ∧
          ∃ mand fill, drawOneOfEach rand (selectedTypes cfg) 0 = some mand ∧
            drawFill (charSet cfg) rand (selectedTypes cfg).length
              (cfg.length - (selectedTypes cfg).length) = some fill ∧
            s.data = shuffle (mand ++ fill) rand cfg.length) ∨
        ((cfg.min_of_each_type = false ∨ selectedTypes cfg = []) ∧
          drawFill (charSet cfg) rand 0 cfg.length = some s.data)) := by
  unfold generate_password at h
  split at h
  · exact absurd h (by simp)
  next hlen =>
    refine ⟨Nat.le_of_not_lt hlen, ?_⟩
    split at h
    next hemp => exact absurd h (by simp)
    next hemp =>
      have hcs : charSet cfg ≠ [] := fun hq => hemp (by simp [hq])
      refine ⟨hcs, ?_⟩
      split at h
      next hcond =>
        rw [Bool.and_eq_true, decide_eq_true_eq] at hcond
        split at h
        · exact absurd h (by simp)
        next hge =>
          left
          refine ⟨hcond.1, hcond.2, Nat.le_of_not_lt hge, ?_⟩
          split at h
          · exact absurd h (by simp)
          next mand hmand =>
            split at h
            · exact absurd h (by simp)
            next fill hfill =>
              refine ⟨mand, fill, hmand, hfill, ?_⟩
              cases h
              rfl
      next hcond =>
        rw [Bool.and_eq_true, decide_eq_true_eq] at hcond
        right
        constructor
        · rcases Bool.eq_false_or_eq_true cfg.min_of_each_type with hm | hm
          · refine Or.inr (List.length_eq_zero.mp ?_)
            by_contra hq
            exact hcond ⟨hm, Nat.pos_of_ne_zero hq⟩
          · exact Or.inl hm
        · split at h
          · exact absurd h (by simp)
          next l hl =>
            cases h
            exact hl

theorem generate_ok_mem (cfg : GenConfig) (rand : Nat → Nat) (s : String)
    (h : generate_password cfg rand = .ok s) : ∀ c ∈ s.data, c ∈ charSet cfg := by
  obtain ⟨-, -, hbr⟩ := generate_ok_cases cfg rand s h
  rcases hbr with ⟨-, -, -, mand, fill, hm, hf, hs⟩ | ⟨-, hf⟩
  · intro c hc
    rw [hs] at hc
    have hc' : c ∈ mand ++ fill :=
      (shuffle_perm (mand ++ fill) rand cfg.length).mem_iff.mp hc
    rcases List.mem_append.mp hc' with h1 | h2
    · obtain ⟨t, ht, hct⟩ := (drawOneOfEach_eq_some rand _ _ _ hm).2.1 c h1
      exact List.mem_flatten_of_mem ht hct
    · exact (drawFill_eq_some _ rand _ _ _ hf).2 c h2
  · intro c hc
    exact (drawFill_eq_some _ rand _ _ _ hf).2 c hc

theorem generate_ne_indexError (cfg : GenConfig) (rand : Nat → Nat) :
    generate_password cfg rand ≠ .error .indexError := by
  unfold generate_password
  split
  · simp
  next hlen =>
    split
    next hemp => simp
    next hemp =>
      have hcs : charSet cfg ≠ [] := fun hq => hemp (by simp [hq])
      split
      next hcond =>
        split
        · simp
        next hge =>
          split
          next hmand =>
            exact absurd (drawOneOfEach_isSome rand (selectedTypes cfg) 0
              (selectedTypes_ne_nil cfg)) (by simp [hmand])
          next mand hmand =>
            split
            next hfill =>
              exact absurd (drawFill_isSome (charSet cfg) rand hcs
                (cfg.length - (selectedTypes cfg).length) (selectedTypes cfg).length)
                (by simp [hfill])
            next fill hfill => simp
      next hcond =>
        split
        next hfill =>
          exact absurd (drawFill_isSome (charSet cfg) rand hcs cfg.length 0)
            (by simp [hfill])
        next l hl => simp

theorem generate_noCharType_iff (cfg : GenConfig) (rand : Nat → Nat) :
    generate_password cfg rand = .error .noCharType ↔
      (4 ≤ cfg.length ∧ cfg.include_lowercase = false ∧ cfg.include_uppercase = false ∧
        cfg.include_digits = false ∧ cfg.include_symbols = false) := by
  constructor
  · intro h
    unfold generate_password at h
    split at h
    · simp at h
    next hlen =>
      split at h
      next hemp =>
        exact ⟨Nat.le_of_not_lt hlen, charSet_eq_nil_flags cfg (by simpa using hemp)⟩
      next hemp =>
        split at h
        · split at h
          · simp at h
          · split at h
            · simp at h
            · split at h
              · simp at h
              · simp at h
        · split at h
          · simp at h
          · simp at h
  · rintro ⟨hlen, h1, h2, h3, h4⟩
    have hset : charSet cfg = [] := by
      simp [charSet, selectedTypes, h1, h2, h3, h4]
    unfold generate_password
    rw [if_neg (Nat.not_lt.mpr hlen), hset]
    rfl

/-- C1: the shuffle of `generate_password` is claimed to be an unbiased
Fisher-Yates shuffle producing every permutation of the buffer with equal
probability. The code instead draws the swap partner
`j = secrets.randbelow(len(password_list))` from the whole index range at
every step. Over the 27 equally likely sequences of three in-range draws,
the six permutations of the buffer `['a', 'b', 'c']` occur 4, 5, 5, 5, 4
and 4 times — not 27/6 each — so the distribution is biased. -/
theorem shuffle_swap_all_biased_on_three :
    biasTriples.length = 27 ∧
      shuffleOutcomes ['a', 'b', 'c'] = 4 ∧ shuffleOutcomes ['a', 'c', 'b'] = 5 ∧
      shuffleOutcomes ['b', 'a', 'c'] = 5 ∧ shuffleOutcomes ['b', 'c', 'a'] = 5 ∧
      shuffleOutcomes ['c', 'a', 'b'] = 4 ∧ shuffleOutcomes ['c', 'b', 'a'] = 4 ∧
      shuffleOutcomes ['a', 'c', 'b'] ≠ shuffleOutcomes ['a', 'b', 'c'] := by
  decide

/-- C2 counterexample: `generate_multiple_passwords` called with
`count = 0` returns the empty list of passwords instead of failing — the
source validates `count` nowhere and has no InvalidCount error at all. -/
theorem generate_multiple_zero_count_returns_empty :
    generate_multiple_passwords 0
      { length := 12, include_lowercase := true, include_uppercase := true,
        include_digits := true, include_symbols := false, exclude_ambiguous := false,
        min_of_each_type := true } (fun _ _ => 0) = .ok [] := rfl

/-- C2 amended: for every `count < 1` and every configuration,
`generate_multiple_passwords` succeeds with the empty list —
`range(count)` is empty, so the comprehension runs zero generations and no
error is raised. -/
theorem generate_multiple_nonpositive_count_ok_nil (count : Int) (h : count < 1)
    (cfg : GenConfig) (rand : Nat → Nat → Nat) :
    generate_multiple_passwords count cfg rand = .ok [] := by
  have h0 : count.toNat = 0 := Int.toNat_of_nonpos (by omega)
  unfold generate_multiple_passwords
  rw [h0]
  rfl

/-- C2 witness: the amended claim at the concrete count -3. -/
theorem generate_multiple_nonpositive_count_ok_nil_witness :
    generate_multiple_passwords (-3)
      { length := 12, include_lowercase := true, include_uppercase := true,
        include_digits := true, include_symbols := false, exclude_ambiguous := false,
        min_of_each_type := true } (fun _ _ => 0) = .ok [] :=
  generate_multiple_nonpositive_count_ok_nil (-3) (by decide)
    { length := 12, include_lowercase := true, include_uppercase := true,
      include_digits := true, include_symbols := false, exclude_ambiguous := false,
      min_of_each_type := true } (fun _ _ => 0)

/-- C3 counterexample: with length 2 (and length 1), lowercase and
uppercase enabled and the one-of-each guarantee on, `generate_password`
raises the `length must be at least 4` error (InvalidLength), which is a
different error from LengthTooShortForClasses: the `length < 4` check runs
first. -/
theorem length_two_two_classes_invalidLength :
    generate_password
        { length := 2, include_lowercase := true, include_uppercase := true,
          include_digits := false, include_symbols := false, exclude_ambiguous := false,
          min_of_each_type := true } (fun _ => 0) = .error .invalidLength ∧
      generate_password
        { length := 1, include_lowercase := true, include_uppercase := true,
          include_digits := false, include_symbols := false, exclude_ambiguous := false,
          min_of_each_type := true } (fun _ => 0) = .error .invalidLength ∧
      PGError.invalidLength ≠ PGError.lengthTooShort 2 :=
  ⟨rfl, rfl, by decide⟩

/-- C3 amended: for every random stream, `generate_password` with length 2
(and likewise length 1), lowercase and uppercase enabled and the
one-of-each guarantee on, fails with the InvalidLength error raised by the
`length < 4` check — not with LengthTooShortForClasses, whose check is
only reached for lengths of at least 4. -/
theorem length_two_two_classes_invalidLength_all_streams (rand : Nat → Nat) :
    generate_password
        { length := 2, include_lowercase := true, include_uppercase := true,
          include_digits := false, include_symbols := false, exclude_ambiguous := false,
          min_of_each_type := true } rand = .error .invalidLength ∧
      generate_password
        { length := 1, include_lowercase := true, include_uppercase := true,
          include_digits := false, include_symbols := false, exclude_ambiguous := false,
          min_of_each_type := true } rand = .error .invalidLength :=
  ⟨rfl, rfl⟩

/-- C4: whenever `generate_password` returns a password (no error raised),
the password has exactly `length` characters, for every configuration and
every sequence of random draws, in both generation branches. -/
theorem generate_password_ok_length (cfg : GenConfig) (rand : Nat → Nat) (s : String)
    (h : generate_password cfg rand = .ok s) : s.length = cfg.length := by
  obtain ⟨-, -, hbr⟩ := generate_ok_cases cfg rand s h
  have hsl : s.length = s.data.length := rfl
  rcases hbr with ⟨-, -, hle, mand, fill, hm, hf, hs⟩ | ⟨-, hf⟩
  · have h1 := (drawOneOfEach_eq_some rand _ _ _ hm).1
    have h2 := (drawFill_eq_some _ rand _ _ _ hf).1
    have hperm := (shuffle_perm (mand ++ fill) rand cfg.length).length_eq
    rw [hsl, hs, hperm, List.length_append, h1, h2]
    omega
  · rw [hsl, (drawFill_eq_some _ rand _ _ _ hf).1]

/-- C4 witness: a concrete generated password of the requested length 4. -/
theorem generate_password_ok_length_witness : ("aaaa" : String).length = 4 :=
  generate_password_ok_length
    { length := 4, include_lowercase := true, include_uppercase := false,
      include_digits := false, include_symbols := false, exclude_ambiguous := false,
      min_of_each_type := true } (fun _ => 0) "aaaa" rfl

/-- C5: with `exclude_ambiguous` enabled, no character of a returned
password belongs to the ambiguous-character table, for every configuration
passing validation and every sequence of random draws. -/
theorem generate_password_excludes_ambiguous (cfg : GenConfig) (rand : Nat → Nat)
    (s : String) (hex : cfg.exclude_ambiguous = true)
    (h : generate_password cfg rand = .ok s) :
    ∀ c ∈ s.data, c ∉ ambiguous_chars := by
  intro c hc
  obtain ⟨t, ht, hct⟩ := List.mem_flatten.mp (generate_ok_mem cfg rand s h c hc)
  obtain ⟨base, -, rfl⟩ := mem_selectedTypes cfg t ht
  rw [hex] at hct
  simp only [filterClass, if_true, List.mem_filter] at hct
  have hfalse : ambiguous_chars.contains c = false := by simpa using hct.2
  intro hmem
  have hcont : ambiguous_chars.contains c = true :=
    List.contains_iff_exists_mem_beq.mpr ⟨c, hmem, by simp⟩
  rw [hcont] at hfalse
  cases hfalse

/-- C5 witness: the first character of a concrete password generated with
ambiguous exclusion on is not ambiguous. -/
theorem generate_password_excludes_ambiguous_witness : ('a' : Char) ∉ ambiguous_chars :=
  generate_password_excludes_ambiguous
    { length := 4, include_lowercase := true, include_uppercase := true,
      include_digits := false, include_symbols := false, exclude_ambiguous := true,
      min_of_each_type := true } (fun _ => 0) "aaAa" rfl rfl 'a' (by decide)

/-- C6: with `min_of_each_type` enabled, every returned password contains
at least one character from each enabled class's filtered character set
(the entries of `selected_types`), and this survives the shuffle step. -/
theorem generate_password_min_of_each_represented (cfg : GenConfig) (rand : Nat → Nat)
    (s : String) (hmin : cfg.min_of_each_type = true)
    (h : generate_password cfg rand = .ok s) :
    ∀ t ∈ selectedTypes cfg, ∃ c, c ∈ s.data ∧ c ∈ t := by
  obtain ⟨-, -, hbr⟩ := generate_ok_cases cfg rand s h
  rcases hbr with ⟨-, -, -, mand, fill, hm, hf, hs⟩ | ⟨hcond, -⟩
  · intro t ht
    obtain ⟨c, hcm, hct⟩ := (drawOneOfEach_eq_some rand _ _ _ hm).2.2 t ht
    refine ⟨c, ?_, hct⟩
    rw [hs]
    exact (shuffle_perm (mand ++ fill) rand cfg.length).mem_iff.mpr
      (List.mem_append.mpr (Or.inl hcm))
  · rcases hcond with hco | hco
    · rw [hmin] at hco
      cases hco
    · intro t ht
      rw [hco] at ht
      exact absurd ht (List.not_mem_nil t)

/-- C6 witness: a concrete generated password contains a character of the
filtered lowercase class. -/
theorem generate_password_min_of_each_represented_witness :
    ∃ c, c ∈ ("aaA2a" : String).data ∧ c ∈ filterClass true lowercase :=
  generate_password_min_of_each_represented
    { length := 5, include_lowercase := true, include_uppercase := true,
      include_digits := true, include_symbols := false, exclude_ambiguous := true,
      min_of_each_type := true } (fun _ => 0) "aaA2a" rfl rfl
    (filterClass true lowercase) (by decide)

/-- C7: every character of a returned password belongs to the assembled
`char_set` (the union of the enabled, ambiguous-filtered classes), for
every configuration passing validation, every sequence of random draws and
both generation branches. -/
theorem generate_password_chars_in_charSet (cfg : GenConfig) (rand : Nat → Nat)
    (s : String) (h : generate_password cfg rand = .ok s) :
    ∀ c ∈ s.data, c ∈ charSet cfg :=
  generate_ok_mem cfg rand s h

/-- C7 witness: the character 2 of a concrete plain-branch password lies
in the assembled character set of its configuration. -/
theorem generate_password_chars_in_charSet_witness :
    ('2' : Char) ∈ charSet
      { length := 4, include_lowercase := false, include_uppercase := false,
        include_digits := true, include_symbols := false, exclude_ambiguous := true,
        min_of_each_type := false } :=
  generate_password_chars_in_charSet
    { length := 4, include_lowercase := false, include_uppercase := false,
      include_digits := true, include_symbols := false, exclude_ambiguous := true,
      min_of_each_type := false } (fun _ => 0) "2222" rfl '2' (by decide)

/-- C8: analysing the empty string yields all four class flags false, zero
character types, score 0 and the label Very Weak; the analyser is a total
function of the input string, so no input makes it fail. -/
theorem check_password_strength_empty :
    check_password_strength "" =
      { length := 0, has_lowercase := false, has_uppercase := false,
        has_digits := false, has_symbols := false, character_types := 0,
        strength := "Very Weak", strength_score := 0 } := rfl

/-- C9: the shuffle loop is a permutation of its input, for every input
buffer and every sequence of swap-index draws: the output has the same
length and the same multiset of characters as the input. -/
theorem shuffle_length_and_perm (l : List Char) (rand : Nat → Nat) (k : Nat) :
    (shuffle l rand k).length = l.length ∧ (shuffle l rand k).Perm l ∧
      (↑(shuffle l rand k) : Multiset Char) = (↑l : Multiset Char) :=
  ⟨(shuffle_perm l rand k).length_eq, shuffle_perm l rand k,
    Multiset.coe_eq_coe.mpr (shuffle_perm l rand k)⟩

/-- C10: ambiguous filtering never empties a class — lowercase loses only
the letter l, uppercase only O and I, digits only 0 and 1, symbols only the
vertical bar — so whenever at least one class flag is on the assembled
character set is non-empty, `secrets.choice` is never handed an empty
sequence after validation (no IndexError outcome is reachable), and the
`At least one character type must be included` error occurs exactly when
the length check passed and all four class flags are off. -/
theorem class_tables_never_empty_and_error_safety (cfg : GenConfig) (rand : Nat → Nat) :
    filterClass true lowercase = "abcdefghijkmnopqrstuvwxyz".toList ∧
      filterClass true uppercase = "ABCDEFGHJKLMNPQRSTUVWXYZ".toList ∧
      filterClass true digits = "23456789".toList ∧
      filterClass true symbols = "!@#$%^&*()_+-=[]\x7b\x7d;:,.<>?".toList ∧
      ((cfg.include_lowercase = true ∨ cfg.include_uppercase = true ∨
          cfg.include_digits = true ∨ cfg.include_symbols = true) → charSet cfg ≠ []) ∧
      generate_password cfg rand ≠ .error .indexError ∧
      (generate_password cfg rand = .error .noCharType ↔
        (4 ≤ cfg.length ∧ cfg.include_lowercase = false ∧
          cfg.include_uppercase = false ∧ cfg.include_digits = false ∧
          cfg.include_symbols = false)) :=
  ⟨by decide, by decide, by decide, by decide,
    charSet_ne_nil_of_flag cfg, generate_ne_indexError cfg rand,
    generate_noCharType_iff cfg rand⟩

/-- C10 witness: at a concrete configuration with lowercase enabled, the
assembled character set is non-empty. -/
theorem class_tables_never_empty_and_error_safety_witness :
    charSet
      { length := 12, include_lowercase := true, include_uppercase := true,
        include_digits := true, include_symbols := false, exclude_ambiguous := false,
        min_of_each_type := true } ≠ [] :=
  (class_tables_never_empty_and_error_safety
    { length := 12, include_lowercase := true, include_uppercase := true,
      include_digits := true, include_symbols := false, exclude_ambiguous := false,
      min_of_each_type := true } (fun _ => 0)).2.2.2.2.1 (Or.inl rfl)

end PasswordGen
